import Mathlib

/-!
Shallow embedding of the LLM-file generation core of the
docusaurus-plugin-llms repository (generator module), together with
theorems checking the natural-language specification against it.

Modelling conventions:
* JavaScript strings are modelled as Lean `String` (sequences of code
  points); `substring`, `split`, `trim` and friends are modelled
  structurally on the character list so that the kernel can evaluate
  them on concrete inputs.
* `localeCompare` is modelled as code-point lexicographic comparison.
* File-system reads of the sidecar descriptor file (`_category_.json`)
  are modelled as an oracle `reader : String -> Option CategoryJson`
  mapping a file path to the parsed JSON value, `none` on read or parse
  failure.
* JavaScript `Array.prototype.sort` (stable since ES2019) is modelled as
  `List.mergeSort` over the comparator turned into a boolean relation.
-/

/-- The whitespace class of the JavaScript regular-expression escape
backslash-s: space, tab, line terminators, and the Unicode space
separators. -/
def jsWhitespace (c : Char) : Bool :=
  c = ' ' || c = '\t' || c = '\n' || c = '\r' ||
  c.val = 0x000B || c.val = 0x000C || c.val = 0x00A0 || c.val = 0x1680 ||
  (0x2000 ≤ c.val && c.val ≤ 0x200A) ||
  c.val = 0x2028 || c.val = 0x2029 || c.val = 0x202F || c.val = 0x205F ||
  c.val = 0x3000 || c.val = 0xFEFF

/-- Split a character list at every occurrence of the separator
character; the JavaScript `split` semantics (splitting the empty string
yields one empty field, a leading separator yields a leading empty
field, and so on). -/
def splitOnChar (sep : Char) : List Char → List (List Char)
  | [] => [[]]
  | c :: rest =>
    if c = sep then [] :: splitOnChar sep rest
    else
      match splitOnChar sep rest with
      | [] => [[c]]
      | g :: gs => (c :: g) :: gs

/-- JavaScript `s.split(sep)` for a one-character separator. -/
def jsSplit (s : String) (sep : Char) : List String :=
  (splitOnChar sep s.toList).map String.mk

/-- JavaScript `Array.prototype.join(sep)`. -/
def joinSep (sep : String) : List String → String
  | [] => ""
  | [s] => s
  | s :: rest => s ++ sep ++ joinSep sep rest

/-- JavaScript `String.prototype.trim`: drop whitespace from both ends. -/
def trimJS (s : String) : String :=
  String.mk ((s.toList.dropWhile jsWhitespace).reverse.dropWhile jsWhitespace).reverse

/-- JavaScript `replace(/^\/+/, '')`: drop the leading run of slashes. -/
def stripLeadingSlashes (s : String) : String :=
  String.mk (s.toList.dropWhile (· = '/'))

/-- JavaScript `replace(/\/+$/, '')`: drop the trailing run of slashes. -/
def stripTrailingSlashes (s : String) : String :=
  String.mk ((s.toList.reverse.dropWhile (· = '/')).reverse)

/-- JavaScript `replace(/^\/+|\/+$/g, '')`: drop leading and trailing
runs of slashes. -/
def trimSlashes (s : String) : String :=
  stripTrailingSlashes (stripLeadingSlashes s)

/-- JavaScript `replace(/\.mdx?$/, '')`: drop one trailing `.md` or
`.mdx` extension. -/
def stripMdExtension (s : String) : String :=
  let cs := s.toList
  if (".mdx".toList).isSuffixOf cs then String.mk (cs.take (cs.length - 4))
  else if (".md".toList).isSuffixOf cs then String.mk (cs.take (cs.length - 3))
  else s

/-- JavaScript `substring(0, n)` on our code-point model. -/
def jsSubstring (s : String) (n : Nat) : String :=
  String.mk (s.toList.take n)

/-- `word.charAt(0).toUpperCase() + word.slice(1)` from
`formatCategoryName`. -/
def capitalizeWord (w : String) : String :=
  match w.toList with
  | [] => ""
  | c :: rest => String.mk (c.toUpper :: rest)

/-- `path.join(a, b)` for the already-normalized segments the generator
produces, modelled as posix joining with a single slash. -/
def pathJoin (a b : String) : String := a ++ "/" ++ b

/-- The replacement step `firstLine.replace(/^(#+)\s+/g, '')` of
`cleanDescriptionForToc`: when the line starts with one or more `#`
followed by at least one whitespace character, drop the hashes and the
whitespace run; otherwise leave the line unchanged.  (Anchored at the
line start, the global flag never produces a second match.) -/
def stripLeadingHeadingMarkers (s : String) : String :=
  let cs := s.toList
  let hashes := cs.takeWhile (· = '#')
  let afterHashes := cs.dropWhile (· = '#')
  let ws := afterHashes.takeWhile jsWhitespace
  if hashes.length > 0 && ws.length > 0 then
    String.mk (afterHashes.dropWhile jsWhitespace)
  else s

/-- `cleanDescriptionForToc` from the generator module: empty input is
returned as-is, otherwise take the first line, strip a leading heading
marker, and truncate to 150 characters with a three-character ellipsis
marker. -/
def cleanDescriptionForToc (description : String) : String :=
  if description = "" then ""
  else
    let firstLine := (jsSplit description '\n').headD ""
    let cleaned := stripLeadingHeadingMarkers firstLine
    if cleaned.length > 150 then jsSubstring cleaned 147 ++ "..." else cleaned

/-- `extractCategoryFromPath` from the generator module. -/
def extractCategoryFromPath (docPath : String) : String :=
  let parts := jsSplit (trimSlashes docPath) '/'
  if parts.length ≥ 3 then parts.getD 2 ""
  else if parts.length ≥ 2 then parts.getD 1 ""
  else "other"

/-- `extractSubdirectoryFromPath` from the generator module. -/
def extractSubdirectoryFromPath (docPath : String) (docsDir : String) : Option String :=
  let parts := jsSplit (stripMdExtension (trimSlashes docPath)) '/'
  if parts.length ≥ 5 && parts.headD "" = docsDir then some (parts.getD 3 "")
  else none

/-- `formatCategoryName` from the generator module: split on hyphens,
capitalize each word, join with spaces. -/
def formatCategoryName (category : String) : String :=
  joinSep " " ((jsSplit category '-').map capitalizeWord)

-- Small sanity checks of the string layer.
example : stripLeadingHeadingMarkers "# hello #tag" = "hello #tag" := by decide
example : stripLeadingHeadingMarkers "a #tag" = "a #tag" := by decide
example : extractCategoryFromPath "/docs/sdk/access/x" = "access" := by decide
example : extractCategoryFromPath "docs/pc/cpp-sdk" = "cpp-sdk" := by decide
example : extractCategoryFromPath "other" = "other" := by decide
example : extractSubdirectoryFromPath "/docs/sdk/start/release-notes/unity" "docs"
    = some "release-notes" := by decide
example : extractSubdirectoryFromPath "/docs/sdk/start/agreement" "docs" = none := by decide
example : formatCategoryName "getting-started" = "Getting Started" := by decide
example : stripMdExtension "a.mdx" = "a" := by decide
example : trimSlashes "/docs/advanced-api-reference" = "docs/advanced-api-reference" := by decide

/-- The frontmatter fields of a document that the generator consults
(`sidebar_position`, `slug`, `id` from the `DocInfo` frontmatter). -/
structure FrontMatter where
  sidebar_position : Option Int := none
  slug : Option String := none
  id : Option String := none
deriving DecidableEq, Repr

/-- The `DocInfo` record of the plugin: a processed document. -/
structure DocInfo where
  path : String
  title : String
  description : String
  content : String
  url : String
  frontMatter : Option FrontMatter := none
deriving DecidableEq, Repr

instance : Inhabited DocInfo := ⟨⟨"", "", "", "", "", none⟩⟩

/-- `a.frontMatter?.sidebar_position ?? 999` from `sortDocsByPosition`. -/
def docPosition (doc : DocInfo) : Int :=
  (doc.frontMatter.bind (·.sidebar_position)).getD 999

/-- The comparator of `sortDocsByPosition` as a boolean relation:
`comparator(a, b) <= 0`, i.e. position ascending with the path
comparison as tie-break. -/
def docLe (a b : DocInfo) : Bool :=
  if docPosition a = docPosition b then a.path ≤ b.path
  else docPosition a < docPosition b

/-- `sortDocsByPosition` from the generator module. -/
def sortDocsByPosition (docs : List DocInfo) : List DocInfo :=
  docs.mergeSort docLe

/-- `generateLinkItem` from the generator module. -/
def generateLinkItem (doc : DocInfo) (includeDescription : Bool) : String :=
  if includeDescription then
    let cleanedDescription := cleanDescriptionForToc doc.description
    "- [" ++ doc.title ++ "](" ++ doc.url ++ ")" ++
      (if cleanedDescription = "" then "" else ": " ++ cleanedDescription)
  else
    "- [" ++ doc.title ++ "](" ++ doc.url ++ ")"

/-- The parsed contents of a `_category_.json` file, as the generator
sees them after `JSON.parse`: an optional `position` and an optional
`label`.  (A falsy label is modelled by `none` or the empty string.) -/
structure CategoryJson where
  position : Option Int := none
  label : Option String := none
deriving DecidableEq, Repr

/-- The `CategoryMetadata` record of the generator module. -/
structure CategoryMetadata where
  position : Int
  label : Option String
deriving DecidableEq, Repr

/-- The default `{ position: 999, label: null }` descriptor. -/
def defaultCategoryMetadata : CategoryMetadata := ⟨999, none⟩

/-- `categoryData.label || null`: a missing or falsy (empty) label
normalizes to null. -/
def normalizeLabel : Option String → Option String
  | some s => if s = "" then none else some s
  | none => none

/-- `readCategoryMetadata` from the generator module, with the file
read and JSON parse modelled by the `reader` oracle: on read or parse
failure (`none` from the oracle) the function returns `null`, otherwise
it normalizes the parsed fields. -/
def readCategoryMetadata (reader : String → Option CategoryJson)
    (categoryPath : String) : Option CategoryMetadata :=
  match reader (pathJoin categoryPath "_category_.json") with
  | none => none
  | some categoryData =>
      some ⟨categoryData.position.getD 999, normalizeLabel categoryData.label⟩

/-- `getCategoryMetadata` from the generator module. -/
def getCategoryMetadata (reader : String → Option CategoryJson)
    (docPath siteDir docsDir : String) : CategoryMetadata :=
  let cleanPath := stripMdExtension (trimSlashes docPath)
  let pathParts := jsSplit cleanPath '/'
  if pathParts.length ≥ 3 && pathParts.headD "" = docsDir then
    let categoryDir := pathJoin siteDir (joinSep "/" (pathParts.take 3))
    (readCategoryMetadata reader categoryDir).getD defaultCategoryMetadata
  else if pathParts.length ≥ 2 && pathParts.headD "" = docsDir then
    let categoryDir := pathJoin siteDir (joinSep "/" (pathParts.take 2))
    (readCategoryMetadata reader categoryDir).getD defaultCategoryMetadata
  else defaultCategoryMetadata

/-- Insert a document at the end of the group of its key, or open a new
group at the end: one step of building a JavaScript `Map` of arrays in
insertion order. -/
def insertGrouped {κ : Type} [DecidableEq κ] (key : κ) (doc : DocInfo) :
    List (κ × List DocInfo) → List (κ × List DocInfo)
  | [] => [(key, [doc])]
  | (k, ds) :: rest =>
      if k = key then (k, ds ++ [doc]) :: rest
      else (k, ds) :: insertGrouped key doc rest

/-- Group documents by a key, keeping first-seen key order and the
document order inside every group (the `Map`-of-arrays pattern of the
generator). -/
def groupDocsBy {κ : Type} [DecidableEq κ] (keyOf : DocInfo → κ)
    (docs : List DocInfo) : List (κ × List DocInfo) :=
  docs.foldl (fun acc doc => insertGrouped (keyOf doc) doc acc) []

/-- Evaluation lemma: merge sort of a two-element list. -/
theorem mergeSort_pair {α : Type} (a b : α) (le : α → α → Bool) :
    [a, b].mergeSort le = if le a b then [a, b] else [b, a] := by
  simp [List.mergeSort, List.merge]

-- Sanity checks.
example : sortDocsByPosition
    [⟨"b", "", "", "", "", some ⟨some 2, none, none⟩⟩,
     ⟨"a", "", "", "", "", some ⟨some 1, none, none⟩⟩]
    = [⟨"a", "", "", "", "", some ⟨some 1, none, none⟩⟩,
       ⟨"b", "", "", "", "", some ⟨some 2, none, none⟩⟩] := by
  simp [sortDocsByPosition, mergeSort_pair]
  decide
example : groupDocsBy (fun doc => extractCategoryFromPath doc.path)
    [⟨"docs/a/cat1/x", "x", "", "", "", none⟩, ⟨"docs/a/cat2/z", "z", "", "", "", none⟩,
     ⟨"docs/a/cat1/y", "y", "", "", "", none⟩]
    = [("cat1", [⟨"docs/a/cat1/x", "x", "", "", "", none⟩, ⟨"docs/a/cat1/y", "y", "", "", "", none⟩]),
       ("cat2", [⟨"docs/a/cat2/z", "z", "", "", "", none⟩])] := by decide

/-- Look up a key in an association list built by the generator
(`Map.get`). -/
def lookupMeta (metaList : List (String × CategoryMetadata)) (c : String) :
    Option CategoryMetadata :=
  (metaList.find? (fun p => p.1 = c)).map (·.2)

/-- The per-category metadata table of the links branch of
`generateLLMFile`: one `getCategoryMetadata` call per category, keyed by
the path of the first (sample) document of the category.  The table is
only populated when both `siteDir` and `docsDir` are provided. -/
def categoryMetadataList (reader : String → Option CategoryJson)
    (groups : List (String × List DocInfo)) (siteDir docsDir : String) :
    List (String × CategoryMetadata) :=
  groups.map (fun g => (g.1, getCategoryMetadata reader (g.2.headD default).path siteDir docsDir))

/-- The category comparator of `generateLLMFile` as a boolean relation
on (category, metadata) pairs: position ascending, falling back to the
lexical comparison of the category key when positions agree.  When the
metadata table is populated it holds an entry for every sorted key, so
the `has` checks of the source comparator always succeed and sorting the
keys paired with their metadata is an equivalent rendering. -/
def categoryPairLe (a b : String × CategoryMetadata) : Bool :=
  if a.2.position = b.2.position then a.1 ≤ b.1
  else a.2.position < b.2.position

/-- The sorted (category, metadata) pairs of the links branch when both
`siteDir` and `docsDir` are provided. -/
def sortedCategoryPairs (reader : String → Option CategoryJson)
    (groups : List (String × List DocInfo)) (siteDir docsDir : String) :
    List (String × CategoryMetadata) :=
  (categoryMetadataList reader groups siteDir docsDir).mergeSort categoryPairLe

/-- `sortedCategories` of the links branch: with both directories
configured, sort by position with lexical fallback; otherwise the
metadata map is empty and the comparator degenerates to the lexical
comparison only. -/
def sortedCategories (reader : String → Option CategoryJson)
    (groups : List (String × List DocInfo)) (siteDir docsDir : Option String) :
    List String :=
  match siteDir, docsDir with
  | some site, some d => (sortedCategoryPairs reader groups site d).map (·.1)
  | _, _ => (groups.map (·.1)).mergeSort (fun a b => a ≤ b)

/-- `docsDir ? extractSubdirectoryFromPath(doc.path, docsDir) : null`
from the links branch. -/
def subdirOf (docsDir : Option String) (doc : DocInfo) : Option String :=
  match docsDir with
  | some d => extractSubdirectoryFromPath doc.path d
  | none => none

/-- The `subdirPathMap` of the links branch: for the first document of
every subdirectory (when `siteDir` and `docsDir` are provided and the
path has at least five segments rooted at `docsDir`), record the join of
the site directory with the first four path segments. -/
def buildSubdirPathPairs (siteDir docsDir : Option String)
    (categoryDocs : List DocInfo) : List (String × String) :=
  categoryDocs.foldl (fun acc doc =>
    match subdirOf docsDir doc, siteDir, docsDir with
    | some s, some site, some d =>
        if acc.any (fun p => p.1 = s) then acc
        else
          let pathParts := jsSplit (stripMdExtension (trimSlashes doc.path)) '/'
          if pathParts.length ≥ 5 && pathParts.headD "" = d then
            acc ++ [(s, pathJoin site (joinSep "/" (pathParts.take 4)))]
          else acc
    | _, _, _ => acc) []

/-- The `subdirMetadataMap` of the links branch: read the descriptor for
every recorded subdirectory path, keeping only successful reads. -/
def subdirMetadataList (reader : String → Option CategoryJson)
    (pairs : List (String × String)) : List (String × CategoryMetadata) :=
  pairs.filterMap (fun p => (readCategoryMetadata reader p.2).map (fun m => (p.1, m)))

/-- The subdirectory comparator of the links branch as a boolean
relation: position ascending when both subdirectories have metadata,
lexical comparison otherwise and on position ties. -/
def subdirNameLe (metaList : List (String × CategoryMetadata)) (a b : String) : Bool :=
  match lookupMeta metaList a, lookupMeta metaList b with
  | some ma, some mb =>
      if ma.position = mb.position then a ≤ b else ma.position < mb.position
  | _, _ => a ≤ b

/-- `metadata?.label || formatCategoryName(category)`: the displayed
title of a category or subdirectory. -/
def categoryTitleOf (metadata : Option CategoryMetadata) (category : String) : String :=
  match metadata with
  | some m =>
      match m.label with
      | some l => l
      | none => formatCategoryName category
  | none => formatCategoryName category

/-- The root-level block of a category section: the documents with no
subdirectory, sorted by position then path, one link item per line;
absent when there is no root-level document. -/
def rootSectionOf (docsDir : Option String) (includeDescriptionInLinks : Bool)
    (categoryDocs : List DocInfo) : List String :=
  let docsBySubdir := groupDocsBy (subdirOf docsDir) categoryDocs
  let rootDocs := ((docsBySubdir.find? (fun p => p.1 = none)).map (·.2)).getD []
  if rootDocs ≠ [] then
    [joinSep "\n" ((sortDocsByPosition rootDocs).map
      (fun doc => generateLinkItem doc includeDescriptionInLinks))]
  else []

/-- The subdirectory blocks of a category section: subdirectory names in
sorted order, each rendered as a third-level heading followed by its
sorted link items. -/
def subdirSectionsOf (reader : String → Option CategoryJson)
    (siteDir docsDir : Option String) (includeDescriptionInLinks : Bool)
    (categoryDocs : List DocInfo) : List String :=
  let docsBySubdir := groupDocsBy (subdirOf docsDir) categoryDocs
  let subdirMeta := subdirMetadataList reader (buildSubdirPathPairs siteDir docsDir categoryDocs)
  let subdirs := (docsBySubdir.map (·.1)).filterMap id
  let sortedSubdirs := subdirs.mergeSort (subdirNameLe subdirMeta)
  sortedSubdirs.map (fun s =>
    let subdirDocs := ((docsBySubdir.find? (fun p => p.1 = some s)).map (·.2)).getD []
    let subdirTitle := categoryTitleOf (lookupMeta subdirMeta s) s
    "### " ++ subdirTitle ++ "\n\n" ++
      joinSep "\n" ((sortDocsByPosition subdirDocs).map
        (fun doc => generateLinkItem doc includeDescriptionInLinks)))

/-- One category section of the links branch of `generateLLMFile`: the
second-level category heading, the root-level block, then the
subdirectory blocks, separated by blank lines. -/
def renderCategorySection (reader : String → Option CategoryJson)
    (siteDir docsDir : Option String) (includeDescriptionInLinks : Bool)
    (categoryMeta : Option CategoryMetadata) (category : String)
    (categoryDocs : List DocInfo) : String :=
  "## " ++ categoryTitleOf categoryMeta category ++ "\n\n" ++
    joinSep "\n\n"
      (rootSectionOf docsDir includeDescriptionInLinks categoryDocs ++
       subdirSectionsOf reader siteDir docsDir includeDescriptionInLinks categoryDocs)

/-- The ordered category sections of the links branch of
`generateLLMFile`. -/
def generateLinksCategorySections (reader : String → Option CategoryJson)
    (docs : List DocInfo) (siteDir docsDir : Option String)
    (includeDescriptionInLinks : Bool) : List String :=
  let groups := groupDocsBy (fun doc => extractCategoryFromPath doc.path) docs
  let metaList :=
    match siteDir, docsDir with
    | some site, some d => categoryMetadataList reader groups site d
    | _, _ => []
  (sortedCategories reader groups siteDir docsDir).map (fun category =>
    let categoryDocs := ((groups.find? (fun p => p.1 = category)).map (·.2)).getD []
    renderCategorySection reader siteDir docsDir includeDescriptionInLinks
      (lookupMeta metaList category) category categoryDocs)

/-- The body of the links-mode artifact below the root content:
category sections joined by blank lines. -/
def generateLinksBody (reader : String → Option CategoryJson)
    (docs : List DocInfo) (siteDir docsDir : Option String)
    (includeDescriptionInLinks : Bool) : String :=
  joinSep "\n\n" (generateLinksCategorySections reader docs siteDir docsDir
    includeDescriptionInLinks)

/-- The heading test of the full-content branch, the regular expression
match against the first content line followed by trimming the captured
group: one or more `#`, at least one whitespace character, then at least
one further character; the heading text is the trimmed remainder. -/
def firstLineHeadingText (line : String) : Option String :=
  let cs := line.toList
  let hashes := cs.takeWhile (· = '#')
  let afterHashes := cs.dropWhile (· = '#')
  let ws := afterHashes.takeWhile jsWhitespace
  let rest := afterHashes.dropWhile jsWhitespace
  if hashes.length > 0 && ws.length > 0 && rest.length > 0 then
    some (trimJS (String.mk rest))
  else none

/-- `trimmedContent.split('\n').slice(1).join('\n')`: the content with
its first line removed. -/
def restAfterFirstLine (s : String) : String :=
  joinSep "\n" ((jsSplit s '\n').drop 1)

/-- Modelled from the spec: `ensureUniqueIdentifier` lives in the utils
module, which is not part of the provided sources.  Section 4.2 of the
specification describes it: the first attempt is the base name itself;
on a collision the candidate `base + space + fallback(counter, base)` is
tried with the counter starting at 2 and increasing until a free name is
found.  The recursion is bounded by fuel (one more candidate than there
are used names, enough for any injective fallback); on fuel exhaustion
the last candidate is returned. -/
def ensureUniqueIdentifier (base : String) (used : List String)
    (fallback : Nat → String → String) : String :=
  if base ∈ used then
    uniqueIdentifierGo base used fallback (used.length + 1) 2
  else base
where
  uniqueIdentifierGo (base : String) (used : List String)
      (fallback : Nat → String → String) : Nat → Nat → String
    | 0, counter => base ++ " " ++ fallback counter base
    | fuel + 1, counter =>
        let candidate := base ++ " " ++ fallback counter base
        if candidate ∈ used then uniqueIdentifierGo base used fallback fuel (counter + 1)
        else candidate

/-- The collision fallback passed to `ensureUniqueIdentifier` by the
full-content branch: on the second collision try the capitalized parent
directory name in parentheses, otherwise a parenthesized counter. -/
def headerFallback (doc : DocInfo) (counter : Nat) (_base : String) : String :=
  if doc.path ≠ "" ∧ counter = 2 then
    let pathParts := jsSplit doc.path '/'
    let folderName :=
      if pathParts.length > 1 then pathParts.getD (pathParts.length - 2) "" else ""
    if folderName ≠ "" then "(" ++ capitalizeWord folderName ++ ")"
    else "(" ++ toString counter ++ ")"
  else "(" ++ toString counter ++ ")"

/-- One document of the full-content branch of `generateLLMFile`:
compute the unique display header, strip the first content line when it
is a heading whose text equals the document title, and render the
section as a second-level heading followed by the body.  Returns the
section together with the updated used-header set. -/
def renderFullDocSection (used : List String) (doc : DocInfo) :
    String × List String :=
  let trimmedContent := trimJS doc.content
  let firstLine := (jsSplit trimmedContent '\n').headD ""
  let firstHeadingText := firstLineHeadingText firstLine
  let uniqueHeader := ensureUniqueIdentifier doc.title used (headerFallback doc)
  let sectionText :=
    if firstHeadingText = some doc.title then
      "## " ++ uniqueHeader ++ "\n\n" ++ restAfterFirstLine trimmedContent
    else
      "## " ++ uniqueHeader ++ "\n\n" ++ doc.content
  (sectionText, used ++ [uniqueHeader])

/-- The `fullContentSections` array of the full-content branch,
threading the used-header set left to right. -/
def fullContentSectionsAux (used : List String) : List DocInfo → List String
  | [] => []
  | doc :: rest =>
      let p := renderFullDocSection used doc
      p.1 :: fullContentSectionsAux p.2 rest

/-- The `fullContentSections` array of the full-content branch. -/
def fullContentSections (docs : List DocInfo) : List String :=
  fullContentSectionsAux [] docs

/-- The join of `fullContentSections` with the horizontal-rule
separator: the concatenated full-content body below the root content. -/
def fullContentBody (docs : List DocInfo) : String :=
  joinSep "\n\n---\n\n" (fullContentSections docs)

/-- The body a document contributes to the full-content artifact: the
trimmed content without its first line when that line is a heading whose
text equals the document title, the original content otherwise. -/
def strippedBody (doc : DocInfo) : String :=
  let trimmedContent := trimJS doc.content
  if firstLineHeadingText ((jsSplit trimmedContent '\n').headD "") = some doc.title then
    restAfterFirstLine trimmedContent
  else doc.content

/-- `relativePath.replace(/\.md$/, '')` from the slug and id branches of
`generateIndividualMarkdownFiles`. -/
def stripMdSuffix (s : String) : String :=
  if (".md".toList).isSuffixOf s.toList then String.mk (s.toList.take (s.toList.length - 3))
  else s

/-- The extension normalization of `generateIndividualMarkdownFiles`:
rewrite a trailing `.mdx` to `.md`, leaving other names unchanged. -/
def mdxToMd (s : String) : String :=
  if (".mdx".toList).isSuffixOf s.toList then
    String.mk (s.toList.take (s.toList.length - 4)) ++ ".md"
  else s

/-- The derived candidate relative output path of
`generateIndividualMarkdownFiles` before the slug, id and fallback
overrides: strip leading slashes, normalize the extension, strip the
configured docs directory prefix. -/
def baseRelativePath (docPath docsDir : String) : String :=
  let p := mdxToMd (stripLeadingSlashes docPath)
  if (docsDir ++ "/").toList.isPrefixOf p.toList then
    String.mk (p.toList.drop (docsDir.length + 1))
  else p

/-- `pathParts[pathParts.length - 1] = replacement` followed by the
re-join and extension: drop the `.md` suffix, split on slashes, replace
the last segment, re-join, append `.md`. -/
def setLastSegment (relativePath replacement : String) : String :=
  let pathParts := jsSplit (stripMdSuffix relativePath) '/'
  joinSep "/" (pathParts.dropLast ++ [replacement]) ++ ".md"

/-- The per-document relative output path of
`generateIndividualMarkdownFiles` (before the case-insensitive
uniqueness pass): slug override first, then id override, then the
sanitized-title fallback for empty or degenerate candidates.  The
`sanitizeForFilename` helper lives in the missing utils module and is
passed in as a parameter. -/
def deriveRelativePath (sanitizeForFilename : String → String → String)
    (docPath docsDir : String) (frontMatter : Option FrontMatter)
    (title : String) : String :=
  let rp := baseRelativePath docPath docsDir
  let slug := (frontMatter.bind (·.slug)).getD ""
  let id := (frontMatter.bind (·.id)).getD ""
  let rp :=
    if slug ≠ "" then setLastSegment rp (trimSlashes slug)
    else if id ≠ "" then setLastSegment rp id
    else rp
  if rp = "" ∨ rp = ".md" then sanitizeForFilename title "untitled" ++ ".md"
  else rp

-- Sanity checks.
example : firstLineHeadingText "# Title" = some "Title" := by decide
example : firstLineHeadingText "#Title" = none := by decide
example : firstLineHeadingText "## " = none := by decide
example : restAfterFirstLine "a\nb\nc" = "b\nc" := by decide
example : baseRelativePath "/docs/api/advanced.md" "docs" = "api/advanced.md" := by decide
example : deriveRelativePath (fun _ d => d) "/docs/api/advanced.md" "docs"
    (some ⟨none, some "/docs/advanced-api-reference", none⟩) "Advanced API"
    = "api/docs/advanced-api-reference.md" := by decide
example : deriveRelativePath (fun _ d => d) "/docs/api/core.md" "docs"
    (some ⟨none, some "api-reference", none⟩) "Core API"
    = "api/api-reference.md" := by decide

/-- Length of a packed character list. -/
theorem String_mk_length (l : List Char) : (String.mk l).length = l.length := rfl

/-- Unpacking the boolean document comparator into the specified
ordering relation. -/
theorem docLe_iff (a b : DocInfo) :
    docLe a b = true ↔
      docPosition a < docPosition b ∨
        (docPosition a = docPosition b ∧ a.path ≤ b.path) := by
  unfold docLe
  by_cases h : docPosition a = docPosition b <;> simp [h]

/-- The document comparator is transitive. -/
theorem docLe_trans (a b c : DocInfo) (hab : docLe a b) (hbc : docLe b c) :
    docLe a c := by
  rw [docLe_iff] at hab hbc ⊢
  rcases hab with h1 | ⟨h1, h1p⟩ <;> rcases hbc with h2 | ⟨h2, h2p⟩
  · exact Or.inl (lt_trans h1 h2)
  · exact Or.inl (h2 ▸ h1)
  · exact Or.inl (h1 ▸ h2)
  · exact Or.inr ⟨h1.trans h2, le_trans h1p h2p⟩

/-- The document comparator is total. -/
theorem docLe_total (a b : DocInfo) : docLe a b || docLe b a := by
  rcases lt_trichotomy (docPosition a) (docPosition b) with h | h | h
  · simp [(docLe_iff a b).mpr (Or.inl h)]
  · rcases le_total a.path b.path with hp | hp
    · simp [(docLe_iff a b).mpr (Or.inr ⟨h, hp⟩)]
    · simp [(docLe_iff b a).mpr (Or.inr ⟨h.symm, hp⟩)]
  · simp [(docLe_iff b a).mpr (Or.inl h)]

/-- Unpacking the boolean category-pair comparator into the specified
ordering relation. -/
theorem categoryPairLe_iff (a b : String × CategoryMetadata) :
    categoryPairLe a b = true ↔
      a.2.position < b.2.position ∨
        (a.2.position = b.2.position ∧ a.1 ≤ b.1) := by
  unfold categoryPairLe
  by_cases h : a.2.position = b.2.position <;> simp [h]

/-- The category-pair comparator is transitive. -/
theorem categoryPairLe_trans (a b c : String × CategoryMetadata)
    (hab : categoryPairLe a b) (hbc : categoryPairLe b c) : categoryPairLe a c := by
  rw [categoryPairLe_iff] at hab hbc ⊢
  rcases hab with h1 | ⟨h1, h1p⟩ <;> rcases hbc with h2 | ⟨h2, h2p⟩
  · exact Or.inl (lt_trans h1 h2)
  · exact Or.inl (h2 ▸ h1)
  · exact Or.inl (h1 ▸ h2)
  · exact Or.inr ⟨h1.trans h2, le_trans h1p h2p⟩

/-- The category-pair comparator is total. -/
theorem categoryPairLe_total (a b : String × CategoryMetadata) :
    categoryPairLe a b || categoryPairLe b a := by
  rcases lt_trichotomy a.2.position b.2.position with h | h | h
  · simp [(categoryPairLe_iff a b).mpr (Or.inl h)]
  · rcases le_total a.1 b.1 with hp | hp
    · simp [(categoryPairLe_iff a b).mpr (Or.inr ⟨h, hp⟩)]
    · simp [(categoryPairLe_iff b a).mpr (Or.inr ⟨h.symm, hp⟩)]
  · simp [(categoryPairLe_iff b a).mpr (Or.inl h)]

/-- C2: for every description string, the TOC cleaning function keeps
only the first line, strips a leading heading marker (a run of hashes
followed by whitespace at the very start of the line only, inline
hashes elsewhere being preserved by `stripLeadingHeadingMarkers`), and
truncates to 150 characters: a cleaned line longer than 150 characters
becomes its first 147 characters plus the three-character ellipsis
marker (150 characters total), a cleaned line of length at most 150 is
returned unchanged, and the result never exceeds 150 characters. -/
theorem cleanDescriptionForToc_spec (description : String) :
    (cleanDescriptionForToc description =
      (let cleaned := stripLeadingHeadingMarkers ((jsSplit description '\n').headD "")
       if cleaned.length > 150 then jsSubstring cleaned 147 ++ "..." else cleaned)) ∧
    (cleanDescriptionForToc description).length =
      min (stripLeadingHeadingMarkers ((jsSplit description '\n').headD "")).length 150 ∧
    (cleanDescriptionForToc description).length ≤ 150 := by
  have hlen : ∀ s : String, ∀ n : Nat, (jsSubstring s n).length = min n s.length := by
    intro s n
    show (String.mk (s.toList.take n)).length = min n s.length
    rw [String_mk_length, List.length_take]
    rfl
  have hmain : cleanDescriptionForToc description =
      (let cleaned := stripLeadingHeadingMarkers ((jsSplit description '\n').headD "")
       if cleaned.length > 150 then jsSubstring cleaned 147 ++ "..." else cleaned) := by
    unfold cleanDescriptionForToc
    by_cases h : description = ""
    · subst h; decide
    · rw [if_neg h]
  refine ⟨hmain, ?_, ?_⟩
  · rw [hmain]
    set cleaned := stripLeadingHeadingMarkers ((jsSplit description '\n').headD "") with hc
    by_cases h : cleaned.length > 150
    · simp only [h, if_true]
      rw [String.length_append, hlen]
      have : ("...".length) = 3 := by decide
      omega
    · simp only [h, if_false]
      omega
  · rw [hmain]
    set cleaned := stripLeadingHeadingMarkers ((jsSplit description '\n').headD "") with hc
    by_cases h : cleaned.length > 150
    · simp only [h, if_true]
      rw [String.length_append, hlen]
      have : ("...".length) = 3 := by decide
      omega
    · simp only [h, if_false]
      omega

/-- C3: category extraction removes leading and trailing slashes,
splits on slash, and returns segment index 2 when at least 3 segments
remain, segment index 1 when exactly 2 segments remain, and the literal
string `other` otherwise. -/
theorem extractCategoryFromPath_spec (docPath : String) :
    extractCategoryFromPath docPath =
      (let parts := jsSplit (trimSlashes docPath) '/'
       if 3 ≤ parts.length then parts.getD 2 ""
       else if parts.length = 2 then parts.getD 1 ""
       else "other") := by
  unfold extractCategoryFromPath
  set parts := jsSplit (trimSlashes docPath) '/' with hp
  by_cases h3 : 3 ≤ parts.length
  · simp [h3]
  · have h2 : parts.length ≥ 2 ↔ parts.length = 2 := by omega
    simp [h3, h2]

/-- C4: the spec example that category extraction maps the path
`docs/pc/cpp-sdk` to `pc` does not hold on the code: the path has three
segments, so the three-or-more branch applies and segment index 2
(`cpp-sdk`) is returned, contradicting the inline comment of the source
which gives `pc` as the expected category for exactly this path.  The
other two spec examples hold. -/
theorem extractCategoryFromPath_examples :
    extractCategoryFromPath "/docs/sdk/access/x" = "access" ∧
    extractCategoryFromPath "other" = "other" ∧
    extractCategoryFromPath "docs/pc/cpp-sdk" = "cpp-sdk" ∧
    extractCategoryFromPath "docs/pc/cpp-sdk" ≠ "pc" := by decide

/-- C5: subdirectory extraction strips a trailing markdown extension
and leading and trailing slashes, splits on slash, and returns segment
index 3 exactly when at least 5 segments remain and segment index 0
equals the root-container name, and null otherwise; in particular the
two spec examples hold. -/
theorem extractSubdirectoryFromPath_spec (docPath docsDir : String) :
    (extractSubdirectoryFromPath docPath docsDir =
      (let parts := jsSplit (stripMdExtension (trimSlashes docPath)) '/'
       if 5 ≤ parts.length ∧ parts.headD "" = docsDir then some (parts.getD 3 "")
       else none)) ∧
    extractSubdirectoryFromPath "/docs/sdk/start/release-notes/unity" "docs"
      = some "release-notes" ∧
    extractSubdirectoryFromPath "/docs/sdk/start/agreement" "docs" = none := by
  refine ⟨?_, by decide, by decide⟩
  unfold extractSubdirectoryFromPath
  set parts := jsSplit (stripMdExtension (trimSlashes docPath)) '/' with hp
  by_cases h : 5 ≤ parts.length ∧ parts.headD "" = docsDir
  · simp [h.1, h.2]
  · rw [if_neg ?_, if_neg h]
    simp only [Bool.and_eq_true, decide_eq_true_eq, not_and] at h ⊢
    intro h5
    exact fun he => h h5 he

/-- C6: sorting is a permutation of the input, any two documents with
distinct effective positions (frontmatter `sidebar_position`, default
999) appear in ascending position order regardless of path, and any two
documents with equal effective positions appear in ascending path
order. -/
theorem sortDocsByPosition_spec (docs : List DocInfo) :
    (sortDocsByPosition docs).Perm docs ∧
    (sortDocsByPosition docs).Pairwise (fun a b =>
      docPosition a < docPosition b ∨
        (docPosition a = docPosition b ∧ a.path ≤ b.path)) := by
  constructor
  · exact List.mergeSort_perm docs docLe
  · have h := List.sorted_mergeSort docLe_trans docLe_total docs
    exact h.imp (fun hab => (docLe_iff _ _).mp hab)

/-- The first document of the C1 end-to-end scenario:
`docs/a/cat1/x` with sidebar position 2. -/
def c1DocX : DocInfo := ⟨"docs/a/cat1/x", "x", "", "", "ux", some ⟨some 2, none, none⟩⟩

/-- The second document of the C1 end-to-end scenario:
`docs/a/cat1/y` with sidebar position 1. -/
def c1DocY : DocInfo := ⟨"docs/a/cat1/y", "y", "", "", "uy", some ⟨some 1, none, none⟩⟩

/-- The third document of the C1 end-to-end scenario:
`docs/a/cat2/z` with no sidebar position. -/
def c1DocZ : DocInfo := ⟨"docs/a/cat2/z", "z", "", "", "uz", none⟩

/-- The document list of the C1 end-to-end scenario. -/
def c1Docs : List DocInfo := [c1DocX, c1DocY, c1DocZ]

/-- The descriptor oracle of the C1 end-to-end scenario: cat1 has
position 1, cat2 has position 0, every other read fails. -/
def c1Reader : String → Option CategoryJson := fun p =>
  if p = "/site/docs/a/cat1/_category_.json" then some ⟨some 1, none⟩
  else if p = "/site/docs/a/cat2/_category_.json" then some ⟨some 0, none⟩
  else none

/-- C1: in links mode the category sections appear in ascending order
of descriptor position with ties broken by the lexical comparison of the
category key (the sorted category-metadata pairs are pairwise ordered by
that relation for every document list, oracle and directory
configuration); and on the three-document scenario of the spec the cat2
section (position 0) is rendered before the cat1 section (position 1),
with the entry for y (position 1) before the entry for x (position 2)
inside cat1. -/
theorem linksMode_categoryOrder_spec (docs : List DocInfo)
    (reader : String → Option CategoryJson) (site d : String) :
    (sortedCategoryPairs reader
        (groupDocsBy (fun doc => extractCategoryFromPath doc.path) docs) site d).Pairwise
      (fun a b => a.2.position < b.2.position ∨
        (a.2.position = b.2.position ∧ a.1 ≤ b.1)) ∧
    generateLinksCategorySections c1Reader c1Docs (some "/site") (some "docs") false =
      ["## Cat2\n\n- [z](uz)", "## Cat1\n\n- [y](uy)\n- [x](ux)"] := by
  constructor
  · exact (List.sorted_mergeSort categoryPairLe_trans categoryPairLe_total _).imp
      (fun hab => (categoryPairLe_iff _ _).mp hab)
  · have hgroups : groupDocsBy (fun doc => extractCategoryFromPath doc.path) c1Docs
        = [("cat1", [c1DocX, c1DocY]), ("cat2", [c1DocZ])] := by decide
    have hmeta : categoryMetadataList c1Reader
        [("cat1", [c1DocX, c1DocY]), ("cat2", [c1DocZ])] "/site" "docs"
        = [("cat1", ⟨1, none⟩), ("cat2", ⟨0, none⟩)] := by decide
    have hpairs : sortedCategoryPairs c1Reader
        [("cat1", [c1DocX, c1DocY]), ("cat2", [c1DocZ])] "/site" "docs"
        = [("cat2", ⟨0, none⟩), ("cat1", ⟨1, none⟩)] := by
      unfold sortedCategoryPairs
      rw [hmeta, mergeSort_pair]
      decide
    have hsortxy : sortDocsByPosition [c1DocX, c1DocY] = [c1DocY, c1DocX] := by
      unfold sortDocsByPosition
      rw [mergeSort_pair]
      decide
    have hsortz : sortDocsByPosition [c1DocZ] = [c1DocZ] := by
      unfold sortDocsByPosition
      rw [List.mergeSort_singleton]
    have hrd1 : (((groupDocsBy (subdirOf (some "docs")) [c1DocX, c1DocY]).find?
        (fun p => p.1 = none)).map (·.2)).getD [] = [c1DocX, c1DocY] := by decide
    have hrd2 : (((groupDocsBy (subdirOf (some "docs")) [c1DocZ]).find?
        (fun p => p.1 = none)).map (·.2)).getD [] = [c1DocZ] := by decide
    have hroot1 : rootSectionOf (some "docs") false [c1DocX, c1DocY]
        = ["- [y](uy)\n- [x](ux)"] := by
      simp only [rootSectionOf, hrd1, hsortxy]
      decide
    have hroot2 : rootSectionOf (some "docs") false [c1DocZ] = ["- [z](uz)"] := by
      simp only [rootSectionOf, hrd2, hsortz]
      decide
    have hsubs1 : ((groupDocsBy (subdirOf (some "docs")) [c1DocX, c1DocY]).map
        (·.1)).filterMap id = ([] : List String) := by decide
    have hsubs2 : ((groupDocsBy (subdirOf (some "docs")) [c1DocZ]).map
        (·.1)).filterMap id = ([] : List String) := by decide
    have hsubsec1 : subdirSectionsOf c1Reader (some "/site") (some "docs") false
        [c1DocX, c1DocY] = [] := by
      simp only [subdirSectionsOf, hsubs1, List.mergeSort_nil, List.map_nil]
    have hsubsec2 : subdirSectionsOf c1Reader (some "/site") (some "docs") false
        [c1DocZ] = [] := by
      simp only [subdirSectionsOf, hsubs2, List.mergeSort_nil, List.map_nil]
    have hrender1 : renderCategorySection c1Reader (some "/site") (some "docs") false
        (some ⟨1, none⟩) "cat1" [c1DocX, c1DocY] = "## Cat1\n\n- [y](uy)\n- [x](ux)" := by
      simp only [renderCategorySection, hroot1, hsubsec1]
      decide
    have hrender2 : renderCategorySection c1Reader (some "/site") (some "docs") false
        (some ⟨0, none⟩) "cat2" [c1DocZ] = "## Cat2\n\n- [z](uz)" := by
      simp only [renderCategorySection, hroot2, hsubsec2]
      decide
    have hlook1 : lookupMeta [("cat1", ⟨1, none⟩), ("cat2", ⟨0, none⟩)] "cat1"
        = some ⟨1, none⟩ := by decide
    have hlook2 : lookupMeta [("cat1", ⟨1, none⟩), ("cat2", ⟨0, none⟩)] "cat2"
        = some ⟨0, none⟩ := by decide
    have hfind1 : (((([("cat1", [c1DocX, c1DocY]), ("cat2", [c1DocZ])]) :
        List (String × List DocInfo)).find? (fun p => p.1 = "cat1")).map (·.2)).getD []
        = [c1DocX, c1DocY] := by decide
    have hfind2 : (((([("cat1", [c1DocX, c1DocY]), ("cat2", [c1DocZ])]) :
        List (String × List DocInfo)).find? (fun p => p.1 = "cat2")).map (·.2)).getD []
        = [c1DocZ] := by decide
    simp only [generateLinksCategorySections, hgroups, sortedCategories, hpairs, hmeta,
      List.map_cons, List.map_nil, hlook1, hlook2, hfind1, hfind2, hrender1, hrender2]

/-- C7: a failed read or parse of the sidecar descriptor (the oracle
returning none) makes the low-level reader return null; when every read
the lookup could issue fails, category metadata lookup returns the
default descriptor (position 999, no label); and the same default is
returned for every document path whose first segment differs from the
configured docs directory name.  All three functions are total, so
descriptor lookup never raises and sorting always completes. -/
theorem getCategoryMetadata_default_spec (reader : String → Option CategoryJson)
    (docPath siteDir docsDir : String) :
    (∀ categoryPath, reader (pathJoin categoryPath "_category_.json") = none →
      readCategoryMetadata reader categoryPath = none) ∧
    ((∀ categoryPath, readCategoryMetadata reader categoryPath = none) →
      getCategoryMetadata reader docPath siteDir docsDir = defaultCategoryMetadata) ∧
    ((jsSplit (stripMdExtension (trimSlashes docPath)) '/').headD "" ≠ docsDir →
      getCategoryMetadata reader docPath siteDir docsDir = defaultCategoryMetadata) := by
  refine ⟨?_, ?_, ?_⟩
  · intro categoryPath h
    unfold readCategoryMetadata
    rw [h]
  · intro h
    unfold getCategoryMetadata
    dsimp only
    split_ifs
    · rw [h]; rfl
    · rw [h]; rfl
    · rfl
  · intro h
    unfold getCategoryMetadata
    dsimp only
    split_ifs with h1 h2
    · simp only [Bool.and_eq_true, decide_eq_true_eq] at h1
      exact absurd h1.2 h
    · simp only [Bool.and_eq_true, decide_eq_true_eq] at h2
      exact absurd h2.2 h
    · rfl

/-- Witness for C7 at concrete inputs: with an oracle that always
fails, lookup on a docs-rooted path defaults, and lookup on a path
rooted outside the docs directory defaults. -/
theorem getCategoryMetadata_default_witness :
    getCategoryMetadata (fun _ => none) "docs/sdk/access/x" "/site" "docs"
      = defaultCategoryMetadata ∧
    getCategoryMetadata (fun _ => none) "blog/post" "/site" "docs"
      = defaultCategoryMetadata :=
  ⟨(getCategoryMetadata_default_spec (fun _ => none) "docs/sdk/access/x" "/site" "docs").2.1
      (fun _ => rfl),
   (getCategoryMetadata_default_spec (fun _ => none) "blog/post" "/site" "docs").2.2
      (by decide)⟩

/-- Folding grouped insertion over a single-group accumulator keeps a
single group when every key matches. -/
theorem foldl_insertGrouped_const {κ : Type} [DecidableEq κ] (keyOf : DocInfo → κ)
    (k : κ) (hk : ∀ doc, keyOf doc = k) :
    ∀ (docs front : List DocInfo),
      docs.foldl (fun acc doc => insertGrouped (keyOf doc) doc acc) [(k, front)]
        = [(k, front ++ docs)] := by
  intro docs
  induction docs with
  | nil => intro front; simp
  | cons d rest ih =>
      intro front
      have hstep : insertGrouped (keyOf d) d [(k, front)] = [(k, front ++ [d])] := by
        rw [hk d]
        simp [insertGrouped]
      calc (d :: rest).foldl (fun acc doc => insertGrouped (keyOf doc) doc acc) [(k, front)]
          = rest.foldl (fun acc doc => insertGrouped (keyOf doc) doc acc) [(k, front ++ [d])] := by
            rw [List.foldl_cons, hstep]
        _ = [(k, front ++ [d] ++ rest)] := ih (front ++ [d])
        _ = [(k, front ++ d :: rest)] := by simp

/-- Grouping with a constant key yields a single group holding the
whole (nonempty) document list. -/
theorem groupDocsBy_constKey {κ : Type} [DecidableEq κ] (keyOf : DocInfo → κ)
    (k : κ) (hk : ∀ doc, keyOf doc = k) (docs : List DocInfo) (hne : docs ≠ []) :
    groupDocsBy keyOf docs = [(k, docs)] := by
  cases docs with
  | nil => exact absurd rfl hne
  | cons d rest =>
      unfold groupDocsBy
      have hstep : insertGrouped (keyOf d) d [] = [(k, [d])] := by rw [hk d]; rfl
      rw [List.foldl_cons, hstep, foldl_insertGrouped_const keyOf k hk rest [d]]
      simp

/-- C10: when the file generator runs without a docs-directory name,
every document is assigned the null subdirectory, the subdirectory
blocks of every category are empty (so the links output carries no
third-level subgroup headings), and every nonempty category renders as
the category heading followed by a single flat link list sorted by
effective position then path. -/
theorem linksMode_noDocsDir_flat_spec (reader : String → Option CategoryJson)
    (siteDir : Option String) (includeDescriptionInLinks : Bool)
    (categoryMeta : Option CategoryMetadata) (category : String) (doc : DocInfo)
    (categoryDocs : List DocInfo) (hne : categoryDocs ≠ []) :
    subdirOf none doc = none ∧
    subdirSectionsOf reader siteDir none includeDescriptionInLinks categoryDocs = [] ∧
    renderCategorySection reader siteDir none includeDescriptionInLinks categoryMeta
        category categoryDocs
      = "## " ++ categoryTitleOf categoryMeta category ++ "\n\n" ++
          joinSep "\n" ((sortDocsByPosition categoryDocs).map
            (fun d2 => generateLinkItem d2 includeDescriptionInLinks)) := by
  have hconst : ∀ d2 : DocInfo, subdirOf none d2 = none := fun _ => rfl
  have hgroup : groupDocsBy (subdirOf none) categoryDocs
      = [((none : Option String), categoryDocs)] :=
    groupDocsBy_constKey (subdirOf none) none hconst categoryDocs hne
  have hfind : (([((none : Option String), categoryDocs)]).find?
      (fun p => p.1 = none)) = some (none, categoryDocs) := rfl
  have hsubsec : subdirSectionsOf reader siteDir none includeDescriptionInLinks
      categoryDocs = [] := by
    simp only [subdirSectionsOf, hgroup, List.map_cons, List.map_nil,
      List.filterMap_cons, id, List.filterMap_nil, List.mergeSort_nil, List.map_nil]
  refine ⟨hconst doc, hsubsec, ?_⟩
  have hroot : rootSectionOf none includeDescriptionInLinks categoryDocs
      = [joinSep "\n" ((sortDocsByPosition categoryDocs).map
          (fun d2 => generateLinkItem d2 includeDescriptionInLinks))] := by
    simp only [rootSectionOf, hgroup, hfind, Option.map_some', Option.getD_some]
    rw [if_pos hne]
  rw [renderCategorySection, hroot, hsubsec]
  simp [joinSep]

/-- Witness for C10 at a concrete input: a one-document category with
no docs-directory name renders flat. -/
theorem linksMode_noDocsDir_flat_witness :
    subdirOf none (⟨"docs/g/c/s/f", "t", "", "", "u", none⟩ : DocInfo) = none ∧
    subdirSectionsOf (fun _ => none) none none false [⟨"docs/g/c/s/f", "t", "", "", "u", none⟩] = [] ∧
    renderCategorySection (fun _ => none) none none false none "c"
        [⟨"docs/g/c/s/f", "t", "", "", "u", none⟩]
      = "## " ++ categoryTitleOf none "c" ++ "\n\n" ++
          joinSep "\n" ((sortDocsByPosition [⟨"docs/g/c/s/f", "t", "", "", "u", none⟩]).map
            (fun d2 => generateLinkItem d2 false)) :=
  linksMode_noDocsDir_flat_spec (fun _ => none) none false none "c"
    ⟨"docs/g/c/s/f", "t", "", "", "u", none⟩
    [⟨"docs/g/c/s/f", "t", "", "", "u", none⟩] (by decide)

/-- Every section produced by the full-content fold is a second-level
heading over some display header followed by the possibly-stripped body
of its document, whatever the incoming used-header set. -/
theorem fullContentSectionsAux_shape :
    ∀ (docs : List DocInfo) (used : List String),
      ∃ headers : List String, headers.length = docs.length ∧
        fullContentSectionsAux used docs =
          List.zipWith (fun h doc => "## " ++ h ++ "\n\n" ++ strippedBody doc)
            headers docs := by
  intro docs
  induction docs with
  | nil => exact fun _ => ⟨[], rfl, rfl⟩
  | cons doc rest ih =>
      intro used
      obtain ⟨headers, hlen, hrest⟩ :=
        ih (used ++ [ensureUniqueIdentifier doc.title used (headerFallback doc)])
      refine ⟨ensureUniqueIdentifier doc.title used (headerFallback doc) :: headers,
        by simp [hlen], ?_⟩
      have hsec : (renderFullDocSection used doc).1 =
          "## " ++ ensureUniqueIdentifier doc.title used (headerFallback doc) ++
            "\n\n" ++ strippedBody doc := by
        unfold renderFullDocSection strippedBody
        dsimp only
        by_cases h : firstLineHeadingText ((jsSplit (trimJS doc.content) '\n').headD "")
            = some doc.title
        · rw [if_pos h, if_pos h]
        · rw [if_neg h, if_neg h]
      have hused : (renderFullDocSection used doc).2 =
          used ++ [ensureUniqueIdentifier doc.title used (headerFallback doc)] := rfl
      show (renderFullDocSection used doc).1 ::
          fullContentSectionsAux (renderFullDocSection used doc).2 rest = _
      rw [hsec, hused, hrest]
      rfl

/-- C9: in full-content mode every document is rendered as a
second-level heading over its display header followed by its body, the
body being the trimmed content without its first line exactly when that
line is a heading whose text equals the document title (and the
original content otherwise), and consecutive rendered documents are
joined by a horizontal-rule separator surrounded by blank lines.  The
closed conjuncts check the stripping behavior on concrete documents. -/
theorem fullContent_sections_spec (docs : List DocInfo) :
    (∃ headers : List String, headers.length = docs.length ∧
      fullContentSections docs =
        List.zipWith (fun h doc => "## " ++ h ++ "\n\n" ++ strippedBody doc)
          headers docs) ∧
    fullContentBody docs = joinSep "\n\n---\n\n" (fullContentSections docs) ∧
    (∀ doc : DocInfo, strippedBody doc =
      (if firstLineHeadingText ((jsSplit (trimJS doc.content) '\n').headD "")
          = some doc.title
       then restAfterFirstLine (trimJS doc.content) else doc.content)) ∧
    strippedBody ⟨"p", "Title", "", "# Title\n\nBody", "u", none⟩ = "\nBody" ∧
    strippedBody ⟨"p", "Other", "", "# Title\n\nBody", "u", none⟩ = "# Title\n\nBody" ∧
    fullContentSections [⟨"p", "Title", "", "# Title\n\nBody", "u", none⟩,
        ⟨"q", "Second", "", "Text", "u2", none⟩] =
      ["## Title\n\n\nBody", "## Second\n\nText"] ∧
    fullContentBody [⟨"p", "Title", "", "# Title\n\nBody", "u", none⟩,
        ⟨"q", "Second", "", "Text", "u2", none⟩] =
      "## Title\n\n\nBody\n\n---\n\n## Second\n\nText" := by
  refine ⟨fullContentSectionsAux_shape docs [], rfl, fun doc => rfl, by decide, by decide,
    by decide, by decide⟩

/-- The join of a list ending in `t` is at least as long as `t`. -/
theorem joinSep_last_length : ∀ (l : List String) (t : String),
    t.length ≤ (joinSep "/" (l ++ [t])).length := by
  intro l
  induction l with
  | nil => intro t; simp [joinSep]
  | cons s rest ih =>
      intro t
      cases rest with
      | nil =>
          show t.length ≤ (s ++ "/" ++ t).length
          rw [String.length_append, String.length_append]
          omega
      | cons r rs =>
          have heq : joinSep "/" ((s :: r :: rs) ++ [t])
              = s ++ "/" ++ joinSep "/" ((r :: rs) ++ [t]) := rfl
          rw [heq, String.length_append, String.length_append]
          have := ih t
          omega

/-- Replacing the last segment with a nonempty string never yields the
empty or the bare-extension degenerate path. -/
theorem setLastSegment_not_degenerate (rp t : String) (ht : t ≠ "") :
    setLastSegment rp t ≠ "" ∧ setLastSegment rp t ≠ ".md" := by
  have ht0 : t.length ≠ 0 := by
    intro h0
    apply ht
    have hdata : t.data = [] := List.length_eq_zero.mp h0
    cases t
    simp only at hdata
    rw [hdata]
  unfold setLastSegment
  have h1 := joinSep_last_length ((jsSplit (stripMdSuffix rp) '/').dropLast) t
  constructor
  · intro heq
    have := congrArg String.length heq
    rw [String.length_append] at this
    have h3 : (".md" : String).length = 3 := by decide
    have h0 : ("" : String).length = 0 := by decide
    omega
  · intro heq
    have := congrArg String.length heq
    rw [String.length_append] at this
    have h3 : (".md" : String).length = 3 := by decide
    omega

/-- The literal reading of claim C8: the replacement written into the
final path segment would be only the trailing segment of the sanitized
slug. -/
def slugClaimOnlyTrailingSegment : Prop :=
  ∀ (sanitize : String → String → String) (docPath docsDir : String)
    (fm : Option FrontMatter) (title slug : String),
    (fm.bind (·.slug)).getD "" = slug → slug ≠ "" →
    deriveRelativePath sanitize docPath docsDir fm title =
      setLastSegment (baseRelativePath docPath docsDir)
        ((jsSplit (trimSlashes slug) '/').getLastD "")

/-- C8 counterexample: for the absolute multi-segment slug
`/docs/advanced-api-reference` on the document `/docs/api/advanced.md`,
the code inserts the whole slash-stripped slug (interior slash kept),
producing `api/docs/advanced-api-reference.md`, not the
`api/advanced-api-reference.md` that taking only the trailing slug
segment would produce. -/
theorem deriveRelativePath_slug_counterexample : ¬ slugClaimOnlyTrailingSegment := by
  intro hclaim
  have h := hclaim (fun _ d => d) "/docs/api/advanced.md" "docs"
    (some ⟨none, some "/docs/advanced-api-reference", none⟩) "Advanced API"
    "/docs/advanced-api-reference" rfl (by decide)
  have hcode : deriveRelativePath (fun _ d => d) "/docs/api/advanced.md" "docs"
      (some ⟨none, some "/docs/advanced-api-reference", none⟩) "Advanced API"
      = "api/docs/advanced-api-reference.md" := by decide
  have hclaimed : setLastSegment (baseRelativePath "/docs/api/advanced.md" "docs")
      ((jsSplit (trimSlashes "/docs/advanced-api-reference") '/').getLastD "")
      = "api/advanced-api-reference.md" := by decide
  rw [hcode, hclaimed] at h
  exact absurd h (by decide)

/-- C8 amended: for every document whose frontmatter declares a
nonempty slug that is not a bare run of slashes, only the final segment
of the derived relative output path is replaced, the replacement being
the entire slug with leading and trailing slashes stripped (interior
slug segments preserved); absolute slugs are thereby treated the same
as relative ones. -/
theorem deriveRelativePath_slug_spec (sanitize : String → String → String)
    (docPath docsDir : String) (fm : Option FrontMatter) (title slug : String)
    (hslug : (fm.bind (·.slug)).getD "" = slug) (hne : slug ≠ "")
    (htrim : trimSlashes slug ≠ "") :
    deriveRelativePath sanitize docPath docsDir fm title =
      setLastSegment (baseRelativePath docPath docsDir) (trimSlashes slug) := by
  have hd := setLastSegment_not_degenerate (baseRelativePath docPath docsDir)
    (trimSlashes slug) htrim
  unfold deriveRelativePath
  dsimp only
  rw [hslug, if_pos hne, if_neg (not_or.mpr ⟨hd.1, hd.2⟩)]

/-- Witness for C8 at the concrete absolute-slug input. -/
theorem deriveRelativePath_slug_witness :
    deriveRelativePath (fun _ d => d) "/docs/api/advanced.md" "docs"
        (some ⟨none, some "/docs/advanced-api-reference", none⟩) "Advanced API" =
      setLastSegment (baseRelativePath "/docs/api/advanced.md" "docs")
        (trimSlashes "/docs/advanced-api-reference") :=
  deriveRelativePath_slug_spec (fun _ d => d) "/docs/api/advanced.md" "docs"
    (some ⟨none, some "/docs/advanced-api-reference", none⟩) "Advanced API"
    "/docs/advanced-api-reference" rfl (by decide) (by decide)
